import Mathlib

/-!
Verification of the ledger-metadata and fund-allocation core of the
Audit_scripts repository.

Part A embeds `银行付款去向追踪/src/bank_payment.py` (the voucher
classification and allocation engine).  Amounts are modelled as exact
rationals `ℚ`; the Python code uses binary floats, but every concrete
input used below involves only small integers on which float arithmetic
is exact, and the tolerance ε = 0.01 statements carry over verbatim.
String parsing of amounts (`float(...)`) is abstracted into the
`RawAmount` type: `_clean_amount` maps an empty field and an unparseable
field to 0.0 and a parsed field to its value; the comma/quote stripping
that precedes `float` does not affect any claim.

Record metadata (付款ID, 摘要, 银行账户, 校验信息, sequence numbers)
carried by the Python dictionaries is data copied from the input rows or
recomputable from the amounts; the embedding keeps the fields the claims
are about: the credit leg identity and amount of each record, and the
list of debit fragments (source leg identity, allocated amount).

Part B embeds `src/data_conversion/parser.py` (the bracket-delimited
tag scanner).  Text is modelled as `List Char`, matching Python's
code-point strings.  The outer scanning loop advances by positions
computed by the colon / bracket sub-scans, so it is given an explicit
fuel argument (one unit per loop iteration; each iteration consumes at
least one character, so `length + 1` fuel is always enough); the two
sub-scans are structurally recursive exactly like the Python sub-loops.
-/

/-- Result of Python `_clean_amount` input shapes: an empty/whitespace
field, a field `float` fails to parse (coerced to 0.0 with a warning),
or a successfully parsed numeric value. -/
inductive RawAmount where
  | empty : RawAmount
  | unparseable : RawAmount
  | parsed : ℚ → RawAmount
deriving DecidableEq

/-- Python `min` on two amounts, written with an explicit comparison so
that it reduces in the kernel. -/
def pyMin (a b : ℚ) : ℚ := if a ≤ b then a else b

/-- Python `abs`, written with an explicit comparison so that it reduces
in the kernel. -/
def pyAbs (q : ℚ) : ℚ := if q < 0 then -q else q

/-- Embedding of `_clean_amount`: empty and unparseable fields become
0.0, parsed fields keep their value. -/
def cleanAmount : RawAmount → ℚ
  | .empty => 0
  | .unparseable => 0
  | .parsed q => q

/-- One input CSV row (one voucher line); `id` stands for the row's
identity (its metadata fields), `debitRaw`/`creditRaw` are the 借方 /
贷方 amount fields before cleaning. -/
structure InputRow where
  id : Nat
  debitRaw : RawAmount
  creditRaw : RawAmount
deriving DecidableEq

/-- A debit-side leg as built by `_process_voucher_group`
(`record['借方金额'] = debit_amount`). -/
structure DebitLeg where
  id : Nat
  amount : ℚ
deriving DecidableEq

/-- A credit-side leg (`record['贷方金额'] = credit_amount`). -/
structure CreditLeg where
  id : Nat
  amount : ℚ
deriving DecidableEq

/-- A debit fragment of a payment record, as produced by
`_create_debit_entry(debit_record, amount)`: the source leg's identity
plus the allocated 金额. -/
structure Fragment where
  legId : Nat
  amount : ℚ
deriving DecidableEq

/-- One output payment record: the credit leg it was built from (identity
and the 金额 stored in its 贷方 block) and its 借方 fragment list. -/
structure PaymentRecord where
  creditId : Nat
  creditAmount : ℚ
  fragments : List Fragment
deriving DecidableEq

/-- The leg-splitting pass at the top of `_process_voucher_group`: a row
whose cleaned 借方 is strictly positive becomes a debit leg, otherwise a
row whose cleaned 贷方 is strictly positive becomes a credit leg,
otherwise the row is dropped. -/
def splitRecords (rows : List InputRow) : List DebitLeg × List CreditLeg :=
  rows.foldr
    (fun r acc =>
      if 0 < cleanAmount r.debitRaw then
        (⟨r.id, cleanAmount r.debitRaw⟩ :: acc.1, acc.2)
      else if 0 < cleanAmount r.creditRaw then
        (acc.1, ⟨r.id, cleanAmount r.creditRaw⟩ :: acc.2)
      else acc)
    ([], [])

/-- The four voucher topologies plus the `未知` (invalid) case, as
returned by `_determine_voucher_type`. -/
inductive VoucherType where
  | oneToOne               -- 一贷一借
  | oneCreditManyDebit     -- 一贷多借
  | manyCreditOneDebit     -- 多贷一借
  | manyCreditManyDebit    -- 多贷多借
  | invalid                -- 未知
deriving DecidableEq

/-- Embedding of `_determine_voucher_type`, mirroring its `if` chain on
the two leg counts. -/
def determineVoucherType (debitCount creditCount : Nat) : VoucherType :=
  if debitCount = 1 ∧ creditCount = 1 then .oneToOne
  else if debitCount = 1 ∧ 1 < creditCount then .manyCreditOneDebit
  else if 1 < debitCount ∧ creditCount = 1 then .oneCreditManyDebit
  else if 1 < debitCount ∧ 1 < creditCount then .manyCreditManyDebit
  else .invalid

/-- Classification as worded by the specification: zero legs on either
side is `Invalid`; otherwise the topology is read off the two counts. -/
def classifySpec (debitCount creditCount : Nat) : VoucherType :=
  if debitCount = 0 ∨ creditCount = 0 then .invalid
  else if debitCount = 1 ∧ creditCount = 1 then .oneToOne
  else if creditCount = 1 then .oneCreditManyDebit
  else if debitCount = 1 then .manyCreditOneDebit
  else .manyCreditManyDebit

/-- Embedding of `_process_one_credit_one_debit`: one record pairing the
single credit leg with one fragment holding the full debit amount. -/
def processOneCreditOneDebit (debit : DebitLeg) (credit : CreditLeg) :
    List PaymentRecord :=
  [{ creditId := credit.id, creditAmount := credit.amount,
     fragments := [⟨debit.id, debit.amount⟩] }]

/-- The allocation loop of `_process_one_credit_multi_debit`: for every
debit leg except the last, allocate `min(debit_amount, remaining_credit)`;
the last leg absorbs the remaining credit; an allocation is appended (and
the remaining credit reduced) only when it is strictly positive. -/
def allocOneCredit : List DebitLeg → ℚ → List Fragment
  | [], _ => []
  | d :: rest, remaining =>
    let alloc := if rest.isEmpty then remaining else pyMin d.amount remaining
    if 0 < alloc then
      ⟨d.id, alloc⟩ :: allocOneCredit rest (remaining - alloc)
    else
      allocOneCredit rest remaining

/-- Embedding of `_process_one_credit_multi_debit`: a single record whose
fragments come from the greedy loop seeded with the credit amount. -/
def processOneCreditMultiDebit (debits : List DebitLeg) (credit : CreditLeg) :
    List PaymentRecord :=
  [{ creditId := credit.id, creditAmount := credit.amount,
     fragments := allocOneCredit debits credit.amount }]

/-- The loop of `_process_multi_credit_one_debit`: each credit leg gets
`min(credit_amount, remaining_debit)` (the last gets all that remains)
and, when that is strictly positive, produces its own record whose 贷方
金额 and single fragment both carry the allocated amount. -/
def allocOneDebit (debit : DebitLeg) : List CreditLeg → ℚ → List PaymentRecord
  | [], _ => []
  | c :: rest, remaining =>
    let alloc := if rest.isEmpty then remaining else pyMin c.amount remaining
    if 0 < alloc then
      { creditId := c.id, creditAmount := alloc,
        fragments := [⟨debit.id, alloc⟩] } :: allocOneDebit debit rest (remaining - alloc)
    else
      allocOneDebit debit rest remaining

/-- Embedding of `_process_multi_credit_one_debit`. -/
def processMultiCreditOneDebit (debit : DebitLeg) (credits : List CreditLeg) :
    List PaymentRecord :=
  allocOneDebit debit credits debit.amount

/-- The inner loop of `_process_multi_credit_multi_debit` for one credit
leg: walk the debit pool, breaking off once the remaining credit is
exhausted (`remaining_credit <= 0` breaks the loop, losing the not yet
visited pool legs); a non-last pool leg yields `min(amount, remaining)`,
the last pool leg absorbs the whole remaining credit; a positive
allocation appends a fragment and re-enters the leg's remainder into the
next pool when it exceeds 0.01.  Returns the fragments, the next pool
(`temp_debits`) and the final remaining credit. -/
def allocPool : List DebitLeg → ℚ → List Fragment × List DebitLeg × ℚ
  | [], remaining => ([], [], remaining)
  | d :: rest, remaining =>
    if remaining ≤ 0 then ([], [], remaining)
    else
      let alloc := if rest.isEmpty then remaining else pyMin d.amount remaining
      if 0 < alloc then
        let next := allocPool rest (remaining - alloc)
        (⟨d.id, alloc⟩ :: next.1,
         (if (1 : ℚ)/100 < d.amount - alloc then [⟨d.id, d.amount - alloc⟩] else [])
           ++ next.2.1,
         next.2.2)
      else
        let next := allocPool rest (remaining - alloc)
        (next.1, next.2.1, next.2.2)

/-- Error values of the allocation engine (`raise ValueError` sites in
`_process_voucher_group` and `_process_multi_credit_multi_debit`). -/
inductive AllocError where
  | unbalanced (totalCredit totalDebit : ℚ)   -- 凭证不平衡
  | unknownVoucherType                        -- 未知的凭证类型
  | emptyLegList                              -- Python IndexError (unreachable)
deriving DecidableEq

deriving instance DecidableEq for Except

/-- Total of the debit legs' amounts. -/
def debitTotal (debits : List DebitLeg) : ℚ := (debits.map DebitLeg.amount).sum

/-- Total of the credit legs' amounts. -/
def creditTotal (credits : List CreditLeg) : ℚ := (credits.map CreditLeg.amount).sum

/-- Embedding of `_process_multi_credit_multi_debit`: reject when the two
raw totals differ by more than 0.01, otherwise fold the per-credit pool
allocation over the credit legs, threading the mutable debit pool. -/
def processMultiCreditMultiDebit (debits : List DebitLeg)
    (credits : List CreditLeg) : Except AllocError (List PaymentRecord) :=
  let totalCredit := creditTotal credits
  let totalDebit := debitTotal debits
  if (1 : ℚ)/100 < pyAbs (totalCredit - totalDebit) then
    .error (.unbalanced totalCredit totalDebit)
  else
    .ok ((credits.foldl
      (fun st c =>
        let step := allocPool st.1 c.amount
        (step.2.1,
         st.2 ++ [{ creditId := c.id, creditAmount := c.amount,
                    fragments := step.1 }]))
      ((debits, []) : List DebitLeg × List PaymentRecord)).2)

/-- Embedding of `_process_voucher_group`: split the rows into legs,
classify, and dispatch.  The `.emptyLegList` branches model the Python
`IndexError` a `[0]` access would raise on an empty list; they are
unreachable because the topology guarantees the lists are non-empty. -/
def processVoucherGroup (rows : List InputRow) :
    Except AllocError (List PaymentRecord) :=
  let split := splitRecords rows
  match determineVoucherType split.1.length split.2.length, split.1, split.2 with
  | .oneToOne, d :: _, c :: _ => .ok (processOneCreditOneDebit d c)
  | .oneCreditManyDebit, ds, c :: _ => .ok (processOneCreditMultiDebit ds c)
  | .manyCreditOneDebit, d :: _, cs => .ok (processMultiCreditOneDebit d cs)
  | .manyCreditManyDebit, ds, cs => processMultiCreditMultiDebit ds cs
  | .invalid, _, _ => .error .unknownVoucherType
  | _, _, _ => .error .emptyLegList

/-- Sum of a fragment list's amounts. -/
def fragSum (fs : List Fragment) : ℚ := (fs.map Fragment.amount).sum

/-- Sum, over a list of payment records, of their fragment amounts. -/
def recordsFragSum (rs : List PaymentRecord) : ℚ :=
  (rs.map (fun r => fragSum r.fragments)).sum

/-- Total amount consumed from the debit leg with identity `legId`
across all records. -/
def consumedFrom (legId : Nat) (rs : List PaymentRecord) : ℚ :=
  (rs.map (fun r => fragSum (r.fragments.filter (fun f => f.legId = legId)))).sum

/-- One parsed auxiliary tag (`item_data` in `_parse_auxiliary_manual`):
raw type, standardized type, validated value and the truncation flag.
The `display_type` and warning-message fields are presentation data
derived from these and are omitted. -/
structure Tag where
  rawType : String
  itemType : String
  itemValue : String
  truncated : Bool
deriving DecidableEq

/-- The `type_mapping` alias table of `AuxiliaryParser.__init__`, in its
Python insertion order (dict iteration order). -/
def typeMapping : List (String × String) :=
  [("客商", "supplier_customer"),
   ("供应商", "supplier"),
   ("客户", "customer"),
   ("项目", "project"),
   ("部门", "department"),
   ("银行账户", "bank_account"),
   ("人员档案", "employee"),
   ("员工", "employee"),
   ("人员", "employee"),
   ("款项名称", "payment_item"),
   ("绩效部门", "performance_dept"),
   ("绩效部门hl", "performance_dept_hl"),
   ("往来单位", "business_partner"),
   ("单位", "unit"),
   ("结算方式", "settlement_method"),
   ("现金流量项目", "cash_flow_item"),
   ("业务员", "salesman"),
   ("存货", "inventory"),
   ("自定义项", "custom_item"),
   ("托外流水号", "external_flow_number"),
   ("外部流水号", "external_flow_number"),
   ("流水号", "flow_number"),
   ("业务类别", "business_category"),
   ("物业地址", "property_address"),
   ("银行档案", "bank_archive"),
   ("合同编号", "contract_number"),
   ("发票号码", "invoice_number"),
   ("收款单位", "receiving_unit"),
   ("付款单位", "paying_unit"),
   ("施工编号", "construction_number"),
   ("项目编号", "project_number"),
   ("档案编号", "archive_number")]

/-- Python list/string containment `needle in hay` on code-point lists:
true when `needle` occurs contiguously inside `hay` (the empty needle is
always contained). -/
def startsWithChars : List Char → List Char → Bool
  | [], _ => true
  | _ :: _, [] => false
  | a :: as, b :: bs => a = b && startsWithChars as bs

/-- Membership of `needle` as a contiguous substring of `hay`. -/
def hasSubstring (hay needle : List Char) : Bool :=
  match hay with
  | [] => needle.isEmpty
  | _ :: t => startsWithChars needle hay || hasSubstring t needle

/-- Embedding of `_standardize_type`: exact lookup in the alias table,
then fuzzy lookup by substring containment in either direction in table
order, then the fallback `raw_type.lower().replace(' ', '_')` (ASCII
case mapping; the table keys and all claim inputs contain only ASCII
letters and CJK characters, on which Python's lower agrees). -/
def standardizeType (rawType : String) : String :=
  match typeMapping.find? (fun kv => kv.1 == rawType) with
  | some kv => kv.2
  | none =>
    match typeMapping.find?
        (fun kv => hasSubstring rawType.data kv.1.data
                   || hasSubstring kv.1.data rawType.data) with
    | some kv => kv.2
    | none =>
      String.mk ((rawType.data.map Char.toLower).map
        (fun c => if c = ' ' then '_' else c))

/-- The claim's wording of the normalization chain: identical exact and
fuzzy stages, but a fallback that lower-cases the raw type and REMOVES
its internal spaces. -/
def claimStandardizeType (rawType : String) : String :=
  match typeMapping.find? (fun kv => kv.1 == rawType) with
  | some kv => kv.2
  | none =>
    match typeMapping.find?
        (fun kv => hasSubstring rawType.data kv.1.data
                   || hasSubstring kv.1.data rawType.data) with
    | some kv => kv.2
    | none =>
      String.mk ((rawType.data.map Char.toLower).filter (fun c => ¬ c = ' '))

/-- The delimiter characters `special_chars` of
`_validate_and_truncate_value`. -/
def isSpecialChar (c : Char) : Bool :=
  c = '【' || c = '】' || c = ':' || c = '：'

/-- The backward walk of `_validate_and_truncate_value`: starting from
the character before the last, skip delimiter characters; equivalently,
remove every trailing delimiter character. -/
def dropTrailingSpecial (t : List Char) : List Char :=
  (t.reverse.dropWhile isSpecialChar).reverse

/-- Embedding of `_validate_and_truncate_value` (value as code points):
an empty or short-enough value is kept untruncated; otherwise the value
is cut to `maxLen` code points and, when the cut lands on a delimiter,
shortened further to the nearest non-delimiter boundary — unless the cut
prefix consists entirely of delimiters, in which case it is kept as is.
Returns the value and the truncation flag. -/
def validateAndTruncate (value : List Char) (maxLen : Nat) : List Char × Bool :=
  if value.isEmpty then (value, false)
  else if value.length ≤ maxLen then (value, false)
  else
    let t := value.take maxLen
    match t.getLast? with
    | none => (t, true)
    | some c =>
      if isSpecialChar c then
        let s := dropTrailingSpecial t
        if s.isEmpty then (t, true) else (s, true)
      else (t, true)

/-- Python `str.strip` on code points (ASCII whitespace; no claim input
involves non-ASCII whitespace). -/
def trimChars (cs : List Char) : List Char :=
  (cs.dropWhile Char.isWhitespace).reverse.dropWhile Char.isWhitespace |>.reverse

/-- Tag assembly inside `_parse_auxiliary_manual` once a matching close
bracket was found: strip the type and value, standardize the type and
apply the length policy. -/
def mkTag (maxLen : Nat) (tyChars valChars : List Char) : Tag :=
  let rawType := String.mk (trimChars tyChars)
  let itemValue := trimChars valChars
  let validated := validateAndTruncate itemValue maxLen
  { rawType := rawType,
    itemType := standardizeType rawType,
    itemValue := String.mk validated.1,
    truncated := validated.2 }

/-- The colon sub-scan of `_parse_auxiliary_manual`: walk forward from
the character after `【` looking for `：`; return the characters before
the colon and the rest after it, or `none` when the text ends first. -/
def findColon : List Char → Option (List Char × List Char)
  | [] => none
  | c :: rest =>
    if c = '：' then some ([], rest)
    else
      match findColon rest with
      | some p => some (c :: p.1, p.2)
      | none => none

/-- The bracket-depth sub-scan of `_parse_auxiliary_manual`: starting
after the colon with `bracket_count` = `depth`, increment on `【`,
decrement on `】`, and stop when the depth returns to zero; return the
value characters (excluding the matching close) and the rest, or `none`
when the text ends with positive depth. -/
def scanValue : List Char → Nat → Option (List Char × List Char)
  | [], _ => none
  | c :: rest, depth =>
    let d := if c = '【' then depth + 1 else if c = '】' then depth - 1 else depth
    if d = 0 then some ([], rest)
    else
      match scanValue rest d with
      | some p => some (c :: p.1, p.2)
      | none => none

/-- The outer loop of `_parse_auxiliary_manual`, with one unit of fuel
per iteration (each iteration consumes at least one character, so any
fuel above the text length is enough): skip characters until `【`, run
the colon scan and the depth scan, and on either failing return the tags
accumulated so far; otherwise emit the tag and continue after the close
bracket. -/
def parseLoop (maxLen : Nat) : Nat → List Char → List Tag → List Tag
  | 0, _, acc => acc.reverse
  | _ + 1, [], acc => acc.reverse
  | fuel + 1, c :: rest, acc =>
    if c = '【' then
      match findColon rest with
      | none => acc.reverse
      | some ty =>
        match scanValue ty.2 1 with
        | none => acc.reverse
        | some v => parseLoop maxLen fuel v.2 (mkTag maxLen ty.1 v.1 :: acc)
    else parseLoop maxLen fuel rest acc

/-- Embedding of `parse_auxiliary_info`: a null field or a string that is
empty after stripping yields no tags; otherwise the stripped text is
scanned by the manual loop. -/
def parseAuxiliaryInfo (maxLen : Nat) (text : Option String) : List Tag :=
  match text with
  | none => []
  | some s =>
    let stripped := trimChars s.data
    if stripped.isEmpty then []
    else parseLoop maxLen (stripped.length + 1) stripped []

/-- A balanced many-credit-many-debit voucher (debits 10, 2, 8; credits
9, 1, 10; both sides total 20) on which the pool loop's early break
drops the unvisited debit legs. -/
def rowsPoolDrop : List InputRow :=
  [⟨0, .parsed 10, .empty⟩, ⟨1, .parsed 2, .empty⟩, ⟨2, .parsed 8, .empty⟩,
   ⟨3, .empty, .parsed 9⟩, ⟨4, .empty, .parsed 1⟩, ⟨5, .empty, .parsed 10⟩]

/-- A balanced many-credit-many-debit voucher (debits 5, 10, 5; credits
12, 8) on which the third debit leg is never consumed while the second
is over-consumed. -/
def rowsLegDrop : List InputRow :=
  [⟨0, .parsed 5, .empty⟩, ⟨1, .parsed 10, .empty⟩, ⟨2, .parsed 5, .empty⟩,
   ⟨3, .empty, .parsed 12⟩, ⟨4, .empty, .parsed 8⟩]

/-- The specification's own unbalanced one-credit-many-debit example:
credit 300 against debits 120, 80, 150 (total 350). -/
def rowsOneCreditUnbalanced : List InputRow :=
  [⟨0, .parsed 120, .empty⟩, ⟨1, .parsed 80, .empty⟩, ⟨2, .parsed 150, .empty⟩,
   ⟨3, .empty, .parsed 300⟩]

/-- An unbalanced many-credit-many-debit voucher (debits 1, 1; credits
1, 2). -/
def rowsManyManyUnbalanced : List InputRow :=
  [⟨0, .parsed 1, .empty⟩, ⟨1, .parsed 1, .empty⟩,
   ⟨2, .empty, .parsed 1⟩, ⟨3, .empty, .parsed 2⟩]

/-- A balanced one-to-one voucher. -/
def rowsOneToOne : List InputRow :=
  [⟨0, .parsed 10, .empty⟩, ⟨1, .empty, .parsed 10⟩]


/-! ### Helper lemmas shared by the claim theorems -/

theorem fragSum_nil : fragSum [] = 0 := rfl

theorem fragSum_cons (f : Fragment) (fs : List Fragment) :
    fragSum (f :: fs) = f.amount + fragSum fs := by
  simp [fragSum]

theorem recordsFragSum_nil : recordsFragSum [] = 0 := rfl

theorem recordsFragSum_cons (r : PaymentRecord) (rs : List PaymentRecord) :
    recordsFragSum (r :: rs) = fragSum r.fragments + recordsFragSum rs := by
  simp [recordsFragSum]

theorem pyMin_le_right (a b : ℚ) : pyMin a b ≤ b := by
  unfold pyMin; split_ifs with h
  · exact h
  · exact le_refl b

theorem pyMin_pos {a b : ℚ} (ha : 0 < a) (hb : 0 < b) : 0 < pyMin a b := by
  unfold pyMin; split_ifs <;> assumption

theorem splitRecords_cons (r : InputRow) (rows : List InputRow) :
    splitRecords (r :: rows) =
      if 0 < cleanAmount r.debitRaw then
        (⟨r.id, cleanAmount r.debitRaw⟩ :: (splitRecords rows).1, (splitRecords rows).2)
      else if 0 < cleanAmount r.creditRaw then
        ((splitRecords rows).1, ⟨r.id, cleanAmount r.creditRaw⟩ :: (splitRecords rows).2)
      else splitRecords rows := rfl

theorem splitRecords_pos (rows : List InputRow) :
    (∀ leg ∈ (splitRecords rows).1, 0 < leg.amount) ∧
    (∀ leg ∈ (splitRecords rows).2, 0 < leg.amount) := by
  induction rows with
  | nil => simp [splitRecords]
  | cons r rest ih =>
    rw [splitRecords_cons]
    by_cases hd : 0 < cleanAmount r.debitRaw
    · simp only [if_pos hd]
      refine ⟨?_, ih.2⟩
      intro leg hleg
      rcases List.mem_cons.mp hleg with h | h
      · subst h; exact hd
      · exact ih.1 leg h
    · by_cases hc : 0 < cleanAmount r.creditRaw
      · simp only [if_neg hd, if_pos hc]
        refine ⟨ih.1, ?_⟩
        intro leg hleg
        rcases List.mem_cons.mp hleg with h | h
        · subst h; exact hc
        · exact ih.2 leg h
      · simp only [if_neg hd, if_neg hc]
        exact ih

theorem allocOneCredit_nil (rem : ℚ) : allocOneCredit [] rem = [] := rfl

theorem allocOneCredit_single (d : DebitLeg) (rem : ℚ) :
    allocOneCredit [d] rem = if 0 < rem then [⟨d.id, rem⟩] else [] := rfl

theorem allocOneCredit_cons₂ (d r : DebitLeg) (rs : List DebitLeg) (rem : ℚ) :
    allocOneCredit (d :: r :: rs) rem =
      if 0 < pyMin d.amount rem then
        ⟨d.id, pyMin d.amount rem⟩ :: allocOneCredit (r :: rs) (rem - pyMin d.amount rem)
      else allocOneCredit (r :: rs) rem := rfl

theorem allocOneDebit_nil (d : DebitLeg) (rem : ℚ) : allocOneDebit d [] rem = [] := rfl

theorem allocOneDebit_single (d : DebitLeg) (c : CreditLeg) (rem : ℚ) :
    allocOneDebit d [c] rem =
      if 0 < rem then [⟨c.id, rem, [⟨d.id, rem⟩]⟩] else [] := rfl

theorem allocOneDebit_cons₂ (d : DebitLeg) (c r : CreditLeg) (rs : List CreditLeg) (rem : ℚ) :
    allocOneDebit d (c :: r :: rs) rem =
      if 0 < pyMin c.amount rem then
        ⟨c.id, pyMin c.amount rem, [⟨d.id, pyMin c.amount rem⟩]⟩ ::
          allocOneDebit d (r :: rs) (rem - pyMin c.amount rem)
      else allocOneDebit d (r :: rs) rem := rfl

theorem allocPool_nil (rem : ℚ) : allocPool [] rem = ([], [], rem) := rfl

theorem allocPool_single (d : DebitLeg) (rem : ℚ) :
    allocPool [d] rem =
      if rem ≤ 0 then ([], [], rem)
      else if 0 < rem then
        ([⟨d.id, rem⟩],
         if (1 : ℚ)/100 < d.amount - rem then [⟨d.id, d.amount - rem⟩] else [],
         (0 : ℚ))
      else ([], [], 0) := by
  rcases le_or_lt rem 0 with h | h
  · simp [allocPool, h]
  · simp [allocPool, not_le.mpr h, h]

theorem allocPool_cons₂ (d r : DebitLeg) (rs : List DebitLeg) (rem : ℚ) :
    allocPool (d :: r :: rs) rem =
      if rem ≤ 0 then ([], [], rem)
      else if 0 < pyMin d.amount rem then
        (⟨d.id, pyMin d.amount rem⟩ ::
           (allocPool (r :: rs) (rem - pyMin d.amount rem)).1,
         (if (1 : ℚ)/100 < d.amount - pyMin d.amount rem then
            [⟨d.id, d.amount - pyMin d.amount rem⟩] else [])
           ++ (allocPool (r :: rs) (rem - pyMin d.amount rem)).2.1,
         (allocPool (r :: rs) (rem - pyMin d.amount rem)).2.2)
      else allocPool (r :: rs) (rem - pyMin d.amount rem) := rfl

theorem allocOneCredit_sum (ds : List DebitLeg) :
    ∀ rem : ℚ, ds ≠ [] → 0 ≤ rem → fragSum (allocOneCredit ds rem) = rem := by
  induction ds with
  | nil => intro rem h _; exact absurd rfl h
  | cons d rest ih =>
    intro rem _ hrem
    cases rest with
    | nil =>
      rw [allocOneCredit_single]
      by_cases hpos : (0 : ℚ) < rem
      · rw [if_pos hpos, fragSum_cons, fragSum_nil]; ring
      · have h0 : rem = 0 := le_antisymm (not_lt.mp hpos) hrem
        rw [if_neg hpos, fragSum_nil, h0]
    | cons r rs =>
      rw [allocOneCredit_cons₂]
      by_cases hpos : 0 < pyMin d.amount rem
      · have hle : pyMin d.amount rem ≤ rem := pyMin_le_right _ _
        have hsub : 0 ≤ rem - pyMin d.amount rem := by linarith
        rw [if_pos hpos, fragSum_cons, ih (rem - pyMin d.amount rem) (by simp) hsub]
        ring
      · rw [if_neg hpos, ih rem (by simp) hrem]

theorem allocOneDebit_sum (d : DebitLeg) (cs : List CreditLeg) :
    ∀ rem : ℚ, cs ≠ [] → 0 ≤ rem → recordsFragSum (allocOneDebit d cs rem) = rem := by
  induction cs with
  | nil => intro rem h _; exact absurd rfl h
  | cons c rest ih =>
    intro rem _ hrem
    cases rest with
    | nil =>
      rw [allocOneDebit_single]
      by_cases hpos : (0 : ℚ) < rem
      · rw [if_pos hpos, recordsFragSum_cons, recordsFragSum_nil]
        show fragSum [⟨d.id, rem⟩] + 0 = rem
        rw [fragSum_cons, fragSum_nil]; ring
      · have h0 : rem = 0 := le_antisymm (not_lt.mp hpos) hrem
        rw [if_neg hpos, recordsFragSum_nil, h0]
    | cons r rs =>
      rw [allocOneDebit_cons₂]
      by_cases hpos : 0 < pyMin c.amount rem
      · have hle : pyMin c.amount rem ≤ rem := pyMin_le_right _ _
        have hsub : 0 ≤ rem - pyMin c.amount rem := by linarith
        rw [if_pos hpos, recordsFragSum_cons, ih (rem - pyMin c.amount rem) (by simp) hsub]
        show fragSum [⟨d.id, pyMin c.amount rem⟩] + _ = rem
        rw [fragSum_cons, fragSum_nil]; ring
      · rw [if_neg hpos, ih rem (by simp) hrem]

theorem allocPool_break (d : DebitLeg) (rest : List DebitLeg) {rem : ℚ} (h : rem ≤ 0) :
    allocPool (d :: rest) rem = ([], [], rem) := by
  cases rest with
  | nil => rw [allocPool_single, if_pos h]
  | cons r rs => rw [allocPool_cons₂, if_pos h]

theorem allocPool_fragSum (pool : List DebitLeg) :
    ∀ rem : ℚ, pool ≠ [] → (∀ l ∈ pool, 0 < l.amount) → 0 < rem →
      fragSum (allocPool pool rem).1 = rem := by
  induction pool with
  | nil => intro rem h _ _; exact absurd rfl h
  | cons d rest ih =>
    intro rem _ hpos hrem
    have hnb : ¬ rem ≤ 0 := not_le.mpr hrem
    cases rest with
    | nil =>
      rw [allocPool_single, if_neg hnb, if_pos hrem]
      show fragSum [⟨d.id, rem⟩] = rem
      rw [fragSum_cons, fragSum_nil]; ring
    | cons r rs =>
      have hallocpos : 0 < pyMin d.amount rem :=
        pyMin_pos (hpos d (List.mem_cons_self d _)) hrem
      have hle : pyMin d.amount rem ≤ rem := pyMin_le_right _ _
      rw [allocPool_cons₂, if_neg hnb, if_pos hallocpos]
      rcases lt_or_eq_of_le (sub_nonneg.mpr hle) with hlt | heq
      · have hrec := ih (rem - pyMin d.amount rem) (by simp)
          (fun l hl => hpos l (List.mem_cons_of_mem d hl)) hlt
        show fragSum (_ :: _) = rem
        rw [fragSum_cons, hrec]; ring
      · have hz : rem - pyMin d.amount rem ≤ 0 := le_of_eq heq.symm
        rw [allocPool_break r rs hz]
        show fragSum [⟨d.id, pyMin d.amount rem⟩] = rem
        rw [fragSum_cons, fragSum_nil]
        linarith [heq]

theorem determineVoucherType_zero_left (b : Nat) :
    determineVoucherType 0 b = .invalid := by
  unfold determineVoucherType
  split_ifs <;> first | rfl | omega | simp_all | (simp_all; omega)

theorem determineVoucherType_zero_right (a : Nat) :
    determineVoucherType a 0 = .invalid := by
  unfold determineVoucherType
  split_ifs <;> first | rfl | omega | simp_all | (simp_all; omega)

theorem determineVoucherType_one_many {b : Nat} (hb : 2 ≤ b) :
    determineVoucherType 1 b = .manyCreditOneDebit := by
  unfold determineVoucherType
  split_ifs <;> first | rfl | omega | simp_all | (simp_all; omega)

theorem determineVoucherType_many_one {a : Nat} (ha : 2 ≤ a) :
    determineVoucherType a 1 = .oneCreditManyDebit := by
  unfold determineVoucherType
  split_ifs <;> first | rfl | omega | simp_all | (simp_all; omega)

theorem determineVoucherType_many_many {a b : Nat} (ha : 2 ≤ a) (hb : 2 ≤ b) :
    determineVoucherType a b = .manyCreditManyDebit := by
  unfold determineVoucherType
  split_ifs <;> first | rfl | omega | simp_all | (simp_all; omega)

/-- C5: `_determine_voucher_type` is a pure function of the two leg
counts that agrees everywhere with the specification's classification:
`Invalid` exactly when either side has zero legs, and the four
topologies read off the counts otherwise. -/
theorem classifyMatchesSpec :
    ∀ debitCount creditCount : Nat,
      determineVoucherType debitCount creditCount = classifySpec debitCount creditCount := by
  intro a b
  unfold determineVoucherType classifySpec
  split_ifs <;> first | rfl | omega | simp_all | (simp_all; omega)

/-- C10: rows are turned into legs only when the cleaned amount is
strictly positive — `_clean_amount` sends empty and unparseable fields
to 0, every produced leg carries a strictly positive amount, and rows
whose two cleaned amounts are both non-positive can be deleted from the
input without changing the leg lists (hence neither the topology nor
any allocated amount). -/
theorem zeroAmountRowsExcluded :
    cleanAmount RawAmount.empty = 0 ∧ cleanAmount RawAmount.unparseable = 0 ∧
    ∀ rows : List InputRow,
      (∀ leg ∈ (splitRecords rows).1, 0 < leg.amount) ∧
      (∀ leg ∈ (splitRecords rows).2, 0 < leg.amount) ∧
      splitRecords (rows.filter (fun r =>
          decide (0 < cleanAmount r.debitRaw) || decide (0 < cleanAmount r.creditRaw))) =
        splitRecords rows := by
  refine ⟨rfl, rfl, fun rows => ⟨(splitRecords_pos rows).1, (splitRecords_pos rows).2, ?_⟩⟩
  induction rows with
  | nil => rfl
  | cons r rest ih =>
    by_cases hd : 0 < cleanAmount r.debitRaw
    · rw [List.filter_cons, if_pos (by simp [hd]), splitRecords_cons, splitRecords_cons,
        if_pos hd, if_pos hd, ih]
    · by_cases hc : 0 < cleanAmount r.creditRaw
      · rw [List.filter_cons, if_pos (by simp [hc]), splitRecords_cons, splitRecords_cons,
          if_neg hd, if_neg hd, if_pos hc, if_pos hc, ih]
      · rw [List.filter_cons, if_neg (by simp [hd, hc]), splitRecords_cons,
          if_neg hd, if_neg hc, ih]

/-- Witness for C10: a concrete positive row becomes a positive debit
leg and a row with two empty amount fields is dropped without effect. -/
theorem zeroAmountRowsExcludedWitness :
    (0 : ℚ) < (DebitLeg.mk 0 10).amount ∧
    splitRecords (List.filter (fun r =>
        decide (0 < cleanAmount r.debitRaw) || decide (0 < cleanAmount r.creditRaw))
        [⟨0, .parsed 10, .empty⟩, ⟨1, .empty, .empty⟩]) =
      splitRecords [⟨0, .parsed 10, .empty⟩, ⟨1, .empty, .empty⟩] := by
  constructor
  · exact (zeroAmountRowsExcluded.2.2 [⟨0, .parsed 10, .empty⟩, ⟨1, .empty, .empty⟩]).1
      ⟨0, 10⟩ (by decide)
  · exact (zeroAmountRowsExcluded.2.2 [⟨0, .parsed 10, .empty⟩, ⟨1, .empty, .empty⟩]).2.2

/-- C4: for a one-credit-many-debit voucher (two or more debit legs,
positive amounts), `_process_one_credit_multi_debit` produces exactly
one record whose fragments come from the greedy loop (`min` for every
leg but the last, the last absorbing the remaining credit), and their
amounts sum exactly to the credit amount — with no balance hypothesis
on the debit side. -/
theorem oneCreditGreedyAllocation (debits : List DebitLeg) (credit : CreditLeg)
    (hlen : 2 ≤ debits.length) (hpos : ∀ d ∈ debits, 0 < d.amount)
    (hcpos : 0 < credit.amount) :
    processOneCreditMultiDebit debits credit =
      [⟨credit.id, credit.amount, allocOneCredit debits credit.amount⟩] ∧
    fragSum (allocOneCredit debits credit.amount) = credit.amount := by
  refine ⟨rfl, ?_⟩
  have hne : debits ≠ [] := by
    cases debits with
    | nil => simp at hlen
    | cons a l => simp
  exact allocOneCredit_sum debits credit.amount hne (le_of_lt hcpos)

/-- Witness for C4 at the specification's example: credit 300 against
debits 120, 80, 150. -/
theorem oneCreditGreedyAllocationWitness :
    processOneCreditMultiDebit [⟨0, 120⟩, ⟨1, 80⟩, ⟨2, 150⟩] ⟨3, 300⟩ =
      [⟨3, 300, allocOneCredit [⟨0, 120⟩, ⟨1, 80⟩, ⟨2, 150⟩] 300⟩] ∧
    fragSum (allocOneCredit [⟨0, 120⟩, ⟨1, 80⟩, ⟨2, 150⟩] 300) = 300 :=
  oneCreditGreedyAllocation [⟨0, 120⟩, ⟨1, 80⟩, ⟨2, 150⟩] ⟨3, 300⟩ (by decide)
    (by decide) (by decide)

/-- C2 (amended): only the many-credit-many-debit path checks the
balance precondition — whenever the split legs have at least two debit
and two credit legs and the raw totals differ by more than 0.01,
`_process_voucher_group` fails with the unbalanced error and produces no
records.  (The other topologies perform no such check; see the
counterexample for the specification's own one-credit-many-debit
example.) -/
theorem mcmdUnbalancedRejected (rows : List InputRow)
    (hd : 2 ≤ (splitRecords rows).1.length) (hc : 2 ≤ (splitRecords rows).2.length)
    (himb : (1 : ℚ)/100 < pyAbs (creditTotal (splitRecords rows).2 -
      debitTotal (splitRecords rows).1)) :
    processVoucherGroup rows =
      .error (.unbalanced (creditTotal (splitRecords rows).2)
        (debitTotal (splitRecords rows).1)) := by
  have hty : determineVoucherType (splitRecords rows).1.length
      (splitRecords rows).2.length = .manyCreditManyDebit :=
    determineVoucherType_many_many hd hc
  unfold processVoucherGroup
  dsimp only
  rw [hty]
  show processMultiCreditMultiDebit (splitRecords rows).1 (splitRecords rows).2 = _
  unfold processMultiCreditMultiDebit
  rw [if_pos himb]

attribute [local semireducible] Rat.sub Rat.add Rat.mul Rat.inv in
/-- Witness for C2 at a concrete unbalanced many-credit-many-debit
voucher (debits 1, 1 against credits 1, 2). -/
theorem mcmdUnbalancedRejectedWitness :
    processVoucherGroup rowsManyManyUnbalanced =
      .error (.unbalanced (creditTotal (splitRecords rowsManyManyUnbalanced).2)
        (debitTotal (splitRecords rowsManyManyUnbalanced).1)) :=
  mcmdUnbalancedRejected rowsManyManyUnbalanced (by decide) (by decide) (by decide)

attribute [local semireducible] Rat.sub Rat.add Rat.mul Rat.inv in
/-- Counterexample to C2 as stated: the specification's own example —
one credit of 300 against debits 120, 80, 150 (total 350, imbalance 50 >
0.01) — is a non-Invalid (one-credit-many-debit) voucher, yet
`_process_voucher_group` does not fail: it silently allocates one record
with fragments 120, 80 and a residual 100 on the last leg. -/
theorem oneCreditUnbalancedAllocated :
    (1 : ℚ)/100 < pyAbs (debitTotal (splitRecords rowsOneCreditUnbalanced).1 -
      creditTotal (splitRecords rowsOneCreditUnbalanced).2) ∧
    determineVoucherType (splitRecords rowsOneCreditUnbalanced).1.length
      (splitRecords rowsOneCreditUnbalanced).2.length = .oneCreditManyDebit ∧
    processVoucherGroup rowsOneCreditUnbalanced =
      .ok [⟨3, 300, [⟨0, 120⟩, ⟨1, 80⟩, ⟨2, 100⟩]⟩] := by decide

/-- C1 (amended): round-trip balance holds for the three non-pool
topologies — whenever the voucher is not classified many-credit-many-
debit, its raw totals agree within ε = 0.01 and processing succeeds, the
sum of all produced fragment amounts equals the credit total within
ε = 0.01.  (For many-credit-many-debit the invariant can fail; see the
counterexample.) -/
theorem roundTripBalanceNonPool (rows : List InputRow) (recs : List PaymentRecord)
    (hty : determineVoucherType (splitRecords rows).1.length
      (splitRecords rows).2.length ≠ VoucherType.manyCreditManyDebit)
    (hbal : pyAbs (debitTotal (splitRecords rows).1 -
      creditTotal (splitRecords rows).2) ≤ 1/100)
    (hok : processVoucherGroup rows = .ok recs) :
    pyAbs (recordsFragSum recs - creditTotal (splitRecords rows).2) ≤ 1/100 := by
  unfold processVoucherGroup at hok
  dsimp only at hok
  cases hds : (splitRecords rows).1 with
  | nil =>
    have h1 : (splitRecords rows).1.length = 0 := by rw [hds]; rfl
    rw [h1, determineVoucherType_zero_left, hds] at hok
    exact Except.noConfusion hok
  | cons d1 ds' =>
    cases hcs : (splitRecords rows).2 with
    | nil =>
      have h2 : (splitRecords rows).2.length = 0 := by rw [hcs]; rfl
      rw [h2, determineVoucherType_zero_right, hds, hcs] at hok
      exact Except.noConfusion hok
    | cons c1 cs' =>
      have hd1pos : 0 < d1.amount :=
        (splitRecords_pos rows).1 d1 (by rw [hds]; exact List.mem_cons_self _ _)
      have hc1pos : 0 < c1.amount :=
        (splitRecords_pos rows).2 c1 (by rw [hcs]; exact List.mem_cons_self _ _)
      rw [hds] at hbal
      rw [hcs] at hbal
      cases ds' with
      | nil =>
        cases cs' with
        | nil =>
          have h1 : (splitRecords rows).1.length = 1 := by rw [hds]; rfl
          have h2 : (splitRecords rows).2.length = 1 := by rw [hcs]; rfl
          rw [h1, h2, show determineVoucherType 1 1 = .oneToOne from rfl,
            hds, hcs] at hok
          have hrec : processOneCreditOneDebit d1 c1 = recs := Except.ok.inj hok
          rw [← hrec]
          unfold processOneCreditOneDebit
          unfold debitTotal at hbal
          unfold creditTotal at hbal ⊢
          simp only [recordsFragSum_cons, recordsFragSum_nil, fragSum_cons, fragSum_nil,
            List.map_cons, List.map_nil, List.sum_cons, List.sum_nil, add_zero] at hbal ⊢
          exact hbal
        | cons c2 cs'' =>
          have h1 : (splitRecords rows).1.length = 1 := by rw [hds]; rfl
          have h2 : (splitRecords rows).2.length = cs''.length + 2 := by rw [hcs]; rfl
          rw [h1, h2, determineVoucherType_one_many (by omega), hds, hcs] at hok
          have hrec : processMultiCreditOneDebit d1 (c1 :: c2 :: cs'') = recs :=
            Except.ok.inj hok
          rw [← hrec]
          unfold processMultiCreditOneDebit
          rw [allocOneDebit_sum d1 (c1 :: c2 :: cs'') d1.amount (by simp)
            (le_of_lt hd1pos)]
          unfold debitTotal at hbal
          simp only [List.map_cons, List.map_nil, List.sum_cons, List.sum_nil,
            add_zero] at hbal
          exact hbal
      | cons d2 ds'' =>
        cases cs' with
        | nil =>
          have h1 : (splitRecords rows).1.length = ds''.length + 2 := by rw [hds]; rfl
          have h2 : (splitRecords rows).2.length = 1 := by rw [hcs]; rfl
          rw [h1, h2, determineVoucherType_many_one (by omega), hds, hcs] at hok
          have hrec : processOneCreditMultiDebit (d1 :: d2 :: ds'') c1 = recs :=
            Except.ok.inj hok
          rw [← hrec]
          unfold processOneCreditMultiDebit
          rw [recordsFragSum_cons, recordsFragSum_nil]
          show pyAbs (fragSum (allocOneCredit (d1 :: d2 :: ds'') c1.amount) + 0 -
            creditTotal [c1]) ≤ 1/100
          rw [allocOneCredit_sum (d1 :: d2 :: ds'') c1.amount (by simp)
            (le_of_lt hc1pos)]
          unfold creditTotal pyAbs
          simp only [List.map_cons, List.map_nil, List.sum_cons, List.sum_nil, add_zero]
          rw [if_neg (by simp)]
          norm_num
        | cons c2 cs'' =>
          exfalso
          apply hty
          have h1 : (splitRecords rows).1.length = ds''.length + 2 := by rw [hds]; rfl
          have h2 : (splitRecords rows).2.length = cs''.length + 2 := by rw [hcs]; rfl
          rw [h1, h2]
          exact determineVoucherType_many_many (by omega) (by omega)

attribute [local semireducible] Rat.sub Rat.add Rat.mul Rat.inv in
/-- Witness for C1 at a concrete balanced one-to-one voucher. -/
theorem roundTripBalanceNonPoolWitness :
    pyAbs (recordsFragSum [⟨1, 10, [⟨0, 10⟩]⟩] -
      creditTotal (splitRecords rowsOneToOne).2) ≤ 1/100 :=
  roundTripBalanceNonPool rowsOneToOne [⟨1, 10, [⟨0, 10⟩]⟩]
    (by decide) (by decide) (by decide)

attribute [local semireducible] Rat.sub Rat.add Rat.mul Rat.inv in
/-- Counterexample to C1 as stated: the balanced many-credit-many-debit
voucher with debits 10, 2, 8 and credits 9, 1, 10 is processed without
error, yet the produced fragments sum to 10 while the credit total is
20 — the first credit's allocation loop breaks early and silently drops
the unvisited pool legs, so the third credit finds an empty pool. -/
theorem mcmdRoundTripCounterexample :
    pyAbs (debitTotal (splitRecords rowsPoolDrop).1 -
      creditTotal (splitRecords rowsPoolDrop).2) ≤ 1/100 ∧
    processVoucherGroup rowsPoolDrop =
      .ok [⟨3, 9, [⟨0, 9⟩]⟩, ⟨4, 1, [⟨0, 1⟩]⟩, ⟨5, 10, []⟩] ∧
    recordsFragSum [⟨3, 9, [⟨0, 9⟩]⟩, ⟨4, 1, [⟨0, 1⟩]⟩, (⟨5, 10, []⟩ : PaymentRecord)] = 10 ∧
    creditTotal (splitRecords rowsPoolDrop).2 = 20 ∧
    ¬ pyAbs (recordsFragSum [⟨3, 9, [⟨0, 9⟩]⟩, ⟨4, 1, [⟨0, 1⟩]⟩, (⟨5, 10, []⟩ : PaymentRecord)] -
        creditTotal (splitRecords rowsPoolDrop).2) ≤ 1/100 := by decide

/-- C3 (amended): inside `_process_multi_credit_multi_debit`, every
credit leg whose allocation loop starts on a non-empty pool of positive
legs receives fragments summing exactly to its amount, and a pool leg
only partially consumed re-enters the pool as a remainder (when above
0.01) — but pool legs not yet visited when the loop breaks are dropped,
so voucher-level conservation and per-leg consumption fail in general
(see the counterexample). -/
theorem mcmdPerCreditPoolBalance :
    (∀ (pool : List DebitLeg) (rem : ℚ), pool ≠ [] → (∀ l ∈ pool, 0 < l.amount) →
        0 < rem → fragSum (allocPool pool rem).1 = rem) ∧
    (∀ (d r : DebitLeg) (rs : List DebitLeg) (rem : ℚ), 0 < rem → rem < d.amount →
        (1 : ℚ)/100 < d.amount - rem →
        allocPool (d :: r :: rs) rem = ([⟨d.id, rem⟩], [⟨d.id, d.amount - rem⟩], 0)) := by
  refine ⟨allocPool_fragSum, ?_⟩
  intro d r rs rem hrem hlt hgap
  have hnb : ¬ rem ≤ 0 := not_le.mpr hrem
  have hm : pyMin d.amount rem = rem := by
    unfold pyMin; rw [if_neg (not_le.mpr hlt)]
  rw [allocPool_cons₂, if_neg hnb, hm, if_pos hrem, sub_self,
    allocPool_break r rs (le_refl 0), if_pos hgap]
  rfl

attribute [local semireducible] Rat.sub Rat.add Rat.mul Rat.inv in
/-- Witness for C3 at a concrete pool: legs 4 and 7 against a credit
need of 3 — the fragments sum to 3 and the first leg re-enters the pool
with remainder 1. -/
theorem mcmdPerCreditPoolBalanceWitness :
    fragSum (allocPool [⟨0, 4⟩, ⟨1, 7⟩] 3).1 = 3 ∧
    allocPool [⟨0, 4⟩, ⟨1, 7⟩] 3 = ([⟨0, 3⟩], [⟨0, 1⟩], 0) := by
  constructor
  · exact mcmdPerCreditPoolBalance.1 [⟨0, 4⟩, ⟨1, 7⟩] 3 (by decide) (by decide) (by decide)
  · have h := mcmdPerCreditPoolBalance.2 ⟨0, 4⟩ ⟨1, 7⟩ [] 3 (by decide) (by decide)
      (by decide)
    rw [h]
    decide

attribute [local semireducible] Rat.sub Rat.add Rat.mul Rat.inv in
/-- Counterexample to C3 as stated: the balanced many-credit-many-debit
voucher with debits 5, 10, 5 and credits 12, 8 allocates 12 and 8 in
full, yet the third debit leg (amount 5) is never consumed and the
second (amount 10) is consumed for 15 — the unvisited leg is dropped
when the first credit's loop breaks, and the last pool leg absorbs the
whole remaining credit of the second record. -/
theorem mcmdLegConservationCounterexample :
    pyAbs (debitTotal (splitRecords rowsLegDrop).1 -
      creditTotal (splitRecords rowsLegDrop).2) ≤ 1/100 ∧
    (⟨2, 5⟩ : DebitLeg) ∈ (splitRecords rowsLegDrop).1 ∧
    (⟨1, 10⟩ : DebitLeg) ∈ (splitRecords rowsLegDrop).1 ∧
    processVoucherGroup rowsLegDrop =
      .ok [⟨3, 12, [⟨0, 5⟩, ⟨1, 7⟩]⟩, ⟨4, 8, [⟨1, 8⟩]⟩] ∧
    consumedFrom 2 [⟨3, 12, [⟨0, 5⟩, ⟨1, 7⟩]⟩, (⟨4, 8, [⟨1, 8⟩]⟩ : PaymentRecord)] = 0 ∧
    consumedFrom 1 [⟨3, 12, [⟨0, 5⟩, ⟨1, 7⟩]⟩, (⟨4, 8, [⟨1, 8⟩]⟩ : PaymentRecord)] = 15 ∧
    ¬ (0 : ℚ) = 5 ∧ ¬ (15 : ℚ) = 10 := by decide

/-- C6: parsing the nested-bracket example yields exactly one tag whose
standardized type is `external_flow_number` and whose value keeps the
nested bracket groups, because the depth counter only closes the tag
when the depth returns to zero (run with the constructor's default
`max_value_length` of 10000). -/
theorem nestedBracketParse :
    parseAuxiliaryInfo 10000 (some "【托外流水号：粤和立【2022】施工【0017】号】") =
      [⟨"托外流水号", "external_flow_number", "粤和立【2022】施工【0017】号", false⟩] := by
  decide

theorem head?_dropWhile_false {p : Char → Bool} :
    ∀ {l : List Char} {c : Char}, (l.dropWhile p).head? = some c → p c = false := by
  intro l
  induction l with
  | nil => intro c h; simp [List.dropWhile] at h
  | cons x xs ih =>
    intro c h
    rw [List.dropWhile_cons] at h
    by_cases hp : p x
    · rw [if_pos hp] at h
      exact ih h
    · rw [if_neg hp] at h
      simp only [List.head?_cons, Option.some.injEq] at h
      rw [← h]
      exact Bool.not_eq_true _ ▸ (by simpa using hp)

theorem dropTrailingSpecial_eq_nil {t : List Char}
    (h : dropTrailingSpecial t = []) : ∀ x ∈ t, isSpecialChar x = true := by
  unfold dropTrailingSpecial at h
  rw [List.reverse_eq_nil_iff, List.dropWhile_eq_nil_iff] at h
  intro x hx
  exact h x (List.mem_reverse.mpr hx)

theorem dropTrailingSpecial_getLast {t : List Char} {c : Char}
    (h : (dropTrailingSpecial t).getLast? = some c) : isSpecialChar c = false := by
  unfold dropTrailingSpecial at h
  rw [List.getLast?_reverse] at h
  exact head?_dropWhile_false h

theorem validateAndTruncate_of_long {value : List Char} {maxLen : Nat}
    (h : maxLen < value.length) :
    validateAndTruncate value maxLen =
      (match (value.take maxLen).getLast? with
       | none => (value.take maxLen, true)
       | some c =>
         if isSpecialChar c then
           if (dropTrailingSpecial (value.take maxLen)).isEmpty then
             (value.take maxLen, true)
           else (dropTrailingSpecial (value.take maxLen), true)
         else (value.take maxLen, true)) := by
  have h1 : ¬ (value.isEmpty = true) := by
    cases value with
    | nil => simp at h
    | cons a l => simp
  have h2 : ¬ (value.length ≤ maxLen) := not_le.mpr h
  unfold validateAndTruncate
  rw [if_neg h1, if_neg h2]

/-- C7 (amended): whenever a value longer than `max_value_length` is
truncated, the tag is marked truncated, and the stored value can end in
a delimiter character only in the last-resort case in which the whole
length-limited prefix consists of delimiter characters (the prefix is
then kept as cut); otherwise the last character is never `【`, `】`,
`：` or `:`. -/
theorem truncationBoundaryAmended (value : List Char) (maxLen : Nat)
    (hlen : maxLen < value.length) :
    (validateAndTruncate value maxLen).2 = true ∧
    (∀ c, ((validateAndTruncate value maxLen).1).getLast? = some c →
      isSpecialChar c = true →
      (validateAndTruncate value maxLen).1 = value.take maxLen ∧
      ∀ x ∈ (validateAndTruncate value maxLen).1, isSpecialChar x = true) := by
  rw [validateAndTruncate_of_long hlen]
  cases hlast : (value.take maxLen).getLast? with
  | none =>
    refine ⟨rfl, ?_⟩
    intro c hc _
    rw [hlast] at hc
    exact Option.noConfusion hc
  | some c0 =>
    dsimp only
    by_cases hsp : isSpecialChar c0 = true
    · rw [if_pos hsp]
      by_cases hdrop : (dropTrailingSpecial (value.take maxLen)).isEmpty = true
      · rw [if_pos hdrop]
        refine ⟨rfl, ?_⟩
        intro c _ _
        exact ⟨rfl, dropTrailingSpecial_eq_nil (List.isEmpty_iff.mp hdrop)⟩
      · rw [if_neg hdrop]
        refine ⟨rfl, ?_⟩
        intro c hc hcsp
        exact absurd hcsp (by simp [dropTrailingSpecial_getLast hc])
    · rw [if_neg hsp]
      refine ⟨rfl, ?_⟩
      intro c hc hcsp
      rw [hlast] at hc
      cases hc
      exact absurd hcsp hsp

/-- Witness for C7: truncating the four-character value `ab：x` to three
characters marks the tag truncated and backs off the delimiter. -/
theorem truncationBoundaryAmendedWitness :
    (validateAndTruncate "ab：x".data 3).2 = true ∧
    (∀ c, ((validateAndTruncate "ab：x".data 3).1).getLast? = some c →
      isSpecialChar c = true →
      (validateAndTruncate "ab：x".data 3).1 = "ab：x".data.take 3 ∧
      ∀ x ∈ (validateAndTruncate "ab：x".data 3).1, isSpecialChar x = true) :=
  truncationBoundaryAmended "ab：x".data 3 (by decide)

/-- Counterexample to C7 as stated: with `max_value_length = 4`, the tag
value `【】【】a` (five characters, all brackets in the first four) is
truncated to `【】【】`, whose last character is the delimiter `】` —
the backward walk finds no non-delimiter and keeps the raw cut. -/
theorem truncationDelimiterKept :
    parseAuxiliaryInfo 4 (some "【x：【】【】a】") = [⟨"x", "x", "【】【】", true⟩] ∧
    4 < (trimChars "【】【】a".data).length ∧
    "【】【】".data.getLast? = some '】' ∧
    isSpecialChar '】' = true := by decide

/-- C8: the parser is a total function (it is a total Lean definition;
the Python loop never indexes out of range and never raises): a null
field or a string that strips to nothing yields the empty list, and at
any point of the scan, if the colon search reaches the end of the text
or the bracket depth never returns to zero, the loop stops and returns
exactly the tags accumulated so far — the malformed tail is dropped. -/
theorem malformedTailRecovery (maxLen : Nat) :
    parseAuxiliaryInfo maxLen none = [] ∧
    (∀ s : String, trimChars s.data = [] → parseAuxiliaryInfo maxLen (some s) = []) ∧
    (∀ (fuel : Nat) (rest : List Char) (acc : List Tag), findColon rest = none →
        parseLoop maxLen (fuel + 1) ('【' :: rest) acc = acc.reverse) ∧
    (∀ (fuel : Nat) (rest : List Char) (p : List Char × List Char) (acc : List Tag),
        findColon rest = some p → scanValue p.2 1 = none →
        parseLoop maxLen (fuel + 1) ('【' :: rest) acc = acc.reverse) := by
  refine ⟨rfl, ?_, ?_, ?_⟩
  · intro s h
    unfold parseAuxiliaryInfo
    dsimp only
    rw [h]
    rfl
  · intro fuel rest acc h
    simp [parseLoop, h]
  · intro fuel rest p acc h1 h2
    simp [parseLoop, h1, h2]

/-- Witness for C8: the empty-after-strip case, a tag opener with no
colon before the end, and a tag whose bracket depth never returns to
zero all return the already-accumulated tags (here none). -/
theorem malformedTailRecoveryWitness :
    parseAuxiliaryInfo 10000 (some "   ") = [] ∧
    parseLoop 10000 5 ('【' :: "abcd".data) [] = [] ∧
    parseLoop 10000 7 ('【' :: "a：b【cd".data) [] = [] := by
  refine ⟨(malformedTailRecovery 10000).2.1 "   " (by decide), ?_, ?_⟩
  · have h := (malformedTailRecovery 10000).2.2.1 4 "abcd".data [] (by decide)
    simpa using h
  · have h := (malformedTailRecovery 10000).2.2.2 6 "a：b【cd".data
      ⟨"a".data, "b【cd".data⟩ [] (by decide) (by decide)
    simpa using h

/-- C9 (amended): `_standardize_type` resolves a raw type by exact
lookup in the alias table, else by the first fuzzy hit (the alias occurs
inside the raw type or the raw type inside the alias, in table order),
else it falls back to the raw type lower-cased with every space replaced
by an underscore (not removed, as the claim stated). -/
theorem standardizeTypeChain :
    (∀ (raw : String) (kv : String × String),
        typeMapping.find? (fun p => p.1 == raw) = some kv →
        standardizeType raw = kv.2) ∧
    (∀ (raw : String) (kv : String × String),
        typeMapping.find? (fun p => p.1 == raw) = none →
        typeMapping.find? (fun p => hasSubstring raw.data p.1.data
          || hasSubstring p.1.data raw.data) = some kv →
        standardizeType raw = kv.2) ∧
    (∀ raw : String,
        typeMapping.find? (fun p => p.1 == raw) = none →
        typeMapping.find? (fun p => hasSubstring raw.data p.1.data
          || hasSubstring p.1.data raw.data) = none →
        standardizeType raw =
          String.mk ((raw.data.map Char.toLower).map
            (fun c => if c = ' ' then '_' else c))) := by
  refine ⟨?_, ?_, ?_⟩
  · intro raw kv h
    unfold standardizeType
    rw [h]
  · intro raw kv h1 h2
    unfold standardizeType
    rw [h1, h2]
  · intro raw h1 h2
    unfold standardizeType
    rw [h1, h2]

/-- Witness for C9: an exact hit, a fuzzy hit (`客商` occurs inside
`客商甲`), and the fallback on `My Type`. -/
theorem standardizeTypeChainWitness :
    standardizeType "客商" = "supplier_customer" ∧
    standardizeType "客商甲" = "supplier_customer" ∧
    standardizeType "My Type" = "my_type" := by
  refine ⟨standardizeTypeChain.1 "客商" ("客商", "supplier_customer") (by decide),
    standardizeTypeChain.2.1 "客商甲" ("客商", "supplier_customer") (by decide) (by decide),
    ?_⟩
  have h := standardizeTypeChain.2.2 "My Type" (by decide) (by decide)
  rw [h]
  decide

/-- Counterexample to C9 as stated: on the fallback path spaces are
replaced by underscores, not removed — `My Type` standardizes to
`my_type`, while the claim's space-removing normalization yields
`mytype`. -/
theorem standardizeFallbackCounterexample :
    standardizeType "My Type" = "my_type" ∧
    claimStandardizeType "My Type" = "mytype" ∧
    ¬ standardizeType "My Type" = claimStandardizeType "My Type" := by decide
